import Mathlib

/-!
Shallow embedding of the data-preparation pipeline of
`neon/data/pascal_voc.py` (PASCAL VOC region database construction and
minibatch sampling), together with proofs settling the specified claims.

Numeric values are modelled over the rationals.  `np.log`, whose values are
irrational, is threaded through as an abstract function argument `lg`;
`np.sqrt` never needs to be evaluated because the per-class standard
deviation computed during normalization is used by the code only as a
divisor, so normalized values are carried as a pair (numerator, variance)
with intended reading numerator / sqrt(variance) (see `NVal`).
-/

attribute [local semireducible] Rat.add Rat.mul Rat.inv Rat.sub

set_option maxRecDepth 8000

namespace PascalVoc

/-! ## Constants (module header of pascal_voc.py) -/

/-- PASCAL_VOC_NUM_CLASSES = 20 + 1 (line 36). -/
def PASCAL_VOC_NUM_CLASSES : ℕ := 20 + 1

/-- FRCN_IOU_THRE = 0.5 (line 41): default IoU threshold for a proposal to be used. -/
def FRCN_IOU_THRE : ℚ := 1/2

/-- FRCN_FG_IOU_THRE = 0.5 (line 42). -/
def FRCN_FG_IOU_THRE : ℚ := 1/2

/-- FRCN_BG_IOU_THRE_LOW = 0.1 (line 44). -/
def FRCN_BG_IOU_THRE_LOW : ℚ := 1/10

/-- FRCN_BG_IOU_THRE_HIGH = 0.5 (line 45). -/
def FRCN_BG_IOU_THRE_HIGH : ℚ := 1/2

/-- FRCN_EPS = 1e-14 (line 58). -/
def FRCN_EPS : ℚ := 1/10^14

/-! ## Boxes and the overlap engine (`calculate_bb_overlap`, lines 643-680) -/

/-- A bounding box (x_min, y_min, x_max, y_max), 0-based inclusive pixel
coordinates.  Malformed boxes (x2 < x1 or y2 < y1) are representable, as in
the source, where boxes are plain numpy rows. -/
structure Box where
  x1 : ℚ
  y1 : ℚ
  x2 : ℚ
  y2 : ℚ
  deriving DecidableEq, Repr

/-- Intersection width (lines 664-667): min(rp_x2, gt_x2) - max(rp_x1, gt_x1) + 1. -/
def interW (r g : Box) : ℚ := min r.x2 g.x2 - max r.x1 g.x1 + 1

/-- Intersection height (lines 669-672). -/
def interH (r g : Box) : ℚ := min r.y2 g.y2 - max r.y1 g.y1 + 1

/-- Box area with the inclusive-extent "+1" convention (lines 659-662, 674-677). -/
def boxArea (b : Box) : ℚ := (b.x2 - b.x1 + 1) * (b.y2 - b.y1 + 1)

/-- Union area `ua` (lines 674-678). -/
def unionArea (r g : Box) : ℚ := boxArea r + boxArea g - interW r g * interH r g

/-- One entry of the overlap matrix, guards included (lines 663-679): 0 unless
both the intersection width and height are strictly positive. -/
def overlapEntry (r g : Box) : ℚ :=
  if 0 < interW r g then
    if 0 < interH r g then interW r g * interH r g / unionArea r g else 0
  else 0

/-- calculate_bb_overlap (lines 643-680): the (R, G) overlap matrix between
proposals `rp` and ground-truth boxes `gt` (gt_dim = 1, i.e. the inner index
ranges over `gt`). -/
def calculate_bb_overlap (rp gt : List Box) : List (List ℚ) :=
  rp.map fun r => gt.map fun g => overlapEntry r g

/-! ## Generic list helpers mirroring numpy reductions -/

/-- Running maximum of `np.max` over a 1-D array (0 for an empty array; the
source never takes the max of an empty row since a PASCAL image has at least
one annotated object). -/
def listMax : List ℚ → ℚ
  | [] => 0
  | x :: xs => xs.foldl max x

/-- Helper for `argmaxIdx`: first index of the maximum, scanning left with the
best value seen so far (strict `<` keeps the first occurrence, as np.argmax). -/
def argmaxAux : List ℚ → ℕ → ℕ → ℚ → ℕ
  | [], _, best, _ => best
  | x :: xs, i, best, bv =>
      if bv < x then argmaxAux xs (i + 1) i x else argmaxAux xs (i + 1) best bv

/-- np.argmax over a 1-D array: index of the first maximal entry (0 if empty). -/
def argmaxIdx : List ℚ → ℕ
  | [] => 0
  | x :: xs => argmaxAux xs 1 0 x

end PascalVoc

namespace PascalVoc

/-! ## Compact regression-target rows and the target encoder -/

/-- One compact regression-target row `(class, dx, dy, dw, dh)` — one row of
the numpy `bb_targets` arrays of shape (N, 5).  The class lives in column 0. -/
structure TRow where
  cls : ℕ
  dx : ℚ
  dy : ℚ
  dw : ℚ
  dh : ℚ
  deriving DecidableEq, Repr

/-- The all-zero target row a proposal keeps when it is not used (line 510:
`ss_bb_targets = np.zeros((num_boxes, 5))`). -/
def zeroTRow : TRow := ⟨0, 0, 0, 0, 0⟩

/-- PASCALVOC._compute_bb_targets for one (ground-truth box, proposal box,
label) triple (lines 616-640).  Widths and heights get FRCN_EPS added (no +1
here, unlike the overlap engine).  `lg` models `np.log`, kept abstract since
its values are irrational. -/
def _compute_bb_targets (lg : ℚ → ℚ) (gt rp : Box) (label : ℕ) : TRow :=
  let rp_width := rp.x2 - rp.x1 + FRCN_EPS
  let rp_height := rp.y2 - rp.y1 + FRCN_EPS
  let rp_ctr_x := rp.x1 + 1/2 * rp_width
  let rp_ctr_y := rp.y1 + 1/2 * rp_height
  let gt_width := gt.x2 - gt.x1 + FRCN_EPS
  let gt_height := gt.y2 - gt.y1 + FRCN_EPS
  let gt_ctr_x := gt.x1 + 1/2 * gt_width
  let gt_ctr_y := gt.y1 + 1/2 * gt_height
  { cls := label
    dx := (gt_ctr_x - rp_ctr_x) / rp_width
    dy := (gt_ctr_y - rp_ctr_y) / rp_height
    dw := lg (gt_width / rp_width)
    dh := lg (gt_height / rp_height) }

/-! ## Per-proposal computations of load_pascal_roi_selectivesearch
(lines 486-527).  The source runs them array-at-a-time over all proposals of
one image; each value below depends only on one proposal row, so they are
stated per proposal box `r`. -/

/-- The overlap-matrix row of proposal `r` against all ground-truth boxes
(the row of `calculate_bb_overlap bb gt_bb` belonging to `r`, line 497). -/
def ovRow (gt_bb : List Box) (r : Box) : List ℚ := gt_bb.map fun g => overlapEntry r g

/-- max_overlap_area for proposal `r` (line 500): best overlap against all
ground-truth boxes. -/
def ss_max_overlap_area (gt_bb : List Box) (r : Box) : ℚ := listMax (ovRow gt_bb r)

/-- max_overlap_arg for proposal `r` (line 501): index of the best-overlapping
ground-truth box. -/
def ss_max_overlap_arg (gt_bb : List Box) (r : Box) : ℕ := argmaxIdx (ovRow gt_bb r)

/-- The per-class overlap table row of proposal `r` (lines 491-505, length
num_classes): zero everywhere except, when the best overlap is strictly
positive, at the class of the best-overlapping ground-truth box. -/
def ss_class_row (num_classes : ℕ) (gt_bb : List Box) (gt_classes : List ℕ)
    (r : Box) : List ℚ :=
  (List.range num_classes).map fun c =>
    if 0 < ss_max_overlap_area gt_bb r ∧
        gt_classes.getD (ss_max_overlap_arg gt_bb r) 0 = c then
      ss_max_overlap_area gt_bb r
    else 0

/-- max_overlap_class for proposal `r` (line 506): argmax over the per-class
table row. -/
def ss_max_overlap_class (num_classes : ℕ) (gt_bb : List Box) (gt_classes : List ℕ)
    (r : Box) : ℕ :=
  argmaxIdx (ss_class_row num_classes gt_bb gt_classes r)

/-- max_overlaps for proposal `r` (line 507): max over the per-class table
row; this is the value compared against the use threshold (line 512). -/
def ss_max_overlaps (num_classes : ℕ) (gt_bb : List Box) (gt_classes : List ℕ)
    (r : Box) : ℚ :=
  listMax (ss_class_row num_classes gt_bb gt_classes r)

/-- The stored target row of proposal `r` (lines 509-518): rows whose
max_overlaps pass the use threshold get a computed target against their
best-matching ground-truth box; all other rows keep the zero row they were
initialized with. -/
def ss_bb_target (lg : ℚ → ℚ) (overlap_thre : ℚ) (num_classes : ℕ)
    (gt_bb : List Box) (gt_classes : List ℕ) (r : Box) : TRow :=
  if overlap_thre ≤ ss_max_overlaps num_classes gt_bb gt_classes r then
    _compute_bb_targets lg
      (gt_bb.getD (ss_max_overlap_arg gt_bb r) ⟨0, 0, 0, 0⟩) r
      (ss_max_overlap_class num_classes gt_bb gt_classes r)
  else zeroTRow

/-- One per-image entry of roi_ss as `combine_gt_ss_roi` consumes it
(lines 520-527): the (re-ordered, 0-based) proposal boxes and their stored
compact target rows. -/
structure SsRoi where
  ss_bb : List Box
  max_overlap_area : List ℚ
  max_overlap_class : List ℕ
  bb_targets : List TRow
  deriving Repr

/-- load_pascal_roi_selectivesearch, per-image core (lines 486-527). -/
def ss_entry (lg : ℚ → ℚ) (overlap_thre : ℚ) (num_classes : ℕ)
    (gt_bb : List Box) (gt_classes : List ℕ) (bb : List Box) : SsRoi :=
  { ss_bb := bb
    max_overlap_area := bb.map (ss_max_overlap_area gt_bb)
    max_overlap_class := bb.map (ss_max_overlap_class num_classes gt_bb gt_classes)
    bb_targets := bb.map (ss_bb_target lg overlap_thre num_classes gt_bb gt_classes) }

/-- One per-image entry of roi_gt as `combine_gt_ss_roi` consumes it.
load_pascal_annotation core (lines 406-454): each ground-truth box carries
overlap 1.0 with its own class and a target row that is all zeros except for
the class column (lines 444-445). -/
structure GtRoi where
  gt_bb : List Box
  gt_classes : List ℕ
  deriving Repr

/-- The gt_bb_target rows of load_pascal_annotation (lines 444-445):
`np.zeros((num_objs, 5))` with column 0 set to the class. -/
def gt_bb_targets (g : GtRoi) : List TRow :=
  g.gt_classes.map fun c => { zeroTRow with cls := c }

/-! ## First facts about the overlap engine -/

theorem interW_le_left (r g : Box) : interW r g ≤ r.x2 - r.x1 + 1 := by
  unfold interW
  have h1 : min r.x2 g.x2 ≤ r.x2 := min_le_left _ _
  have h2 : r.x1 ≤ max r.x1 g.x1 := le_max_left _ _
  linarith

theorem interW_le_right (r g : Box) : interW r g ≤ g.x2 - g.x1 + 1 := by
  unfold interW
  have h1 : min r.x2 g.x2 ≤ g.x2 := min_le_right _ _
  have h2 : g.x1 ≤ max r.x1 g.x1 := le_max_right _ _
  linarith

theorem interH_le_left (r g : Box) : interH r g ≤ r.y2 - r.y1 + 1 := by
  unfold interH
  have h1 : min r.y2 g.y2 ≤ r.y2 := min_le_left _ _
  have h2 : r.y1 ≤ max r.y1 g.y1 := le_max_left _ _
  linarith

theorem interH_le_right (r g : Box) : interH r g ≤ g.y2 - g.y1 + 1 := by
  unfold interH
  have h1 : min r.y2 g.y2 ≤ g.y2 := min_le_right _ _
  have h2 : g.y1 ≤ max r.y1 g.y1 := le_max_right _ _
  linarith

/-- When both guards pass, the intersection area is at most either box area,
hence at most the union area, which is therefore strictly positive: the
division in line 679 never divides by zero. -/
theorem unionArea_pos (r g : Box) (hw : 0 < interW r g) (hh : 0 < interH r g) :
    interW r g * interH r g ≤ unionArea r g ∧ 0 < unionArea r g := by
  have hrw := interW_le_left r g
  have hgw := interW_le_right r g
  have hrh := interH_le_left r g
  have hgh := interH_le_right r g
  have hr : interW r g * interH r g ≤ boxArea r := by
    unfold boxArea; nlinarith
  have hg : interW r g * interH r g ≤ boxArea g := by
    unfold boxArea; nlinarith
  constructor
  · unfold unionArea; nlinarith
  · unfold unionArea; nlinarith

theorem overlapEntry_nonneg (r g : Box) : 0 ≤ overlapEntry r g := by
  unfold overlapEntry
  split
  · split
    · rename_i hw hh
      have h := unionArea_pos r g hw hh
      exact div_nonneg (by nlinarith) (le_of_lt h.2)
    · exact le_refl 0
  · exact le_refl 0

theorem overlapEntry_le_one (r g : Box) : overlapEntry r g ≤ 1 := by
  unfold overlapEntry
  split
  · split
    · rename_i hw hh
      have h := unionArea_pos r g hw hh
      exact (div_le_one h.2).mpr h.1
    · exact zero_le_one
  · exact zero_le_one

theorem overlapEntry_eq_zero_of_nonpos (r g : Box)
    (h : interW r g ≤ 0 ∨ interH r g ≤ 0) : overlapEntry r g = 0 := by
  unfold overlapEntry
  rcases h with h | h
  · rw [if_neg (by linarith)]
  · by_cases hw : 0 < interW r g
    · rw [if_pos hw, if_neg (by linarith)]
    · rw [if_neg hw]

end PascalVoc

namespace PascalVoc

/-! ## listMax bounds -/

theorem foldl_max_le (b : ℚ) : ∀ (l : List ℚ) (a : ℚ), a ≤ b → (∀ x ∈ l, x ≤ b) →
    l.foldl max a ≤ b := by
  intro l
  induction l with
  | nil => intro a ha _; simpa using ha
  | cons x xs ih =>
      intro a ha hl
      simp only [List.foldl_cons]
      exact ih (max a x) (max_le ha (hl x (by simp)))
        fun y hy => hl y (List.mem_cons_of_mem _ hy)

theorem listMax_le (l : List ℚ) (b : ℚ) (hb : 0 ≤ b) (h : ∀ x ∈ l, x ≤ b) :
    listMax l ≤ b := by
  cases l with
  | nil => simpa [listMax] using hb
  | cons x xs =>
      exact foldl_max_le b xs x (h x (by simp))
        fun y hy => h y (List.mem_cons_of_mem _ hy)

/-- Every entry of the per-class overlap table row is at most
max(best overlap, 0). -/
theorem ss_class_row_entry_le (num_classes : ℕ) (gt_bb : List Box)
    (gt_classes : List ℕ) (r : Box) :
    ∀ v ∈ ss_class_row num_classes gt_bb gt_classes r,
      v ≤ max (ss_max_overlap_area gt_bb r) 0 := by
  intro v hv
  simp only [ss_class_row, List.mem_map] at hv
  obtain ⟨c, -, rfl⟩ := hv
  split
  · exact le_max_left _ _
  · exact le_max_right _ _

/-- The value compared against the use threshold is bounded by the best
direct overlap (when that is nonnegative, which it always is). -/
theorem ss_max_overlaps_le (num_classes : ℕ) (gt_bb : List Box)
    (gt_classes : List ℕ) (r : Box) :
    ss_max_overlaps num_classes gt_bb gt_classes r ≤
      max (ss_max_overlap_area gt_bb r) 0 :=
  listMax_le _ _ (le_max_right _ _) (ss_class_row_entry_le num_classes gt_bb gt_classes r)

/-- Claim C6: during database construction, a proposal whose best overlap
against all ground-truth boxes stays below the (positive) use threshold keeps
the all-zero target row it was initialized with — class column 0 and all four
deltas 0 — while still occupying its slot in the per-image region set (the
stored target list has one row per proposal box). -/
theorem c6_below_use_threshold_is_zeroed :
    ∀ (lg : ℚ → ℚ) (overlap_thre : ℚ) (num_classes : ℕ)
      (gt_bb : List Box) (gt_classes : List ℕ) (bb : List Box) (r : Box),
      0 < overlap_thre →
      ss_max_overlap_area gt_bb r < overlap_thre →
      ss_bb_target lg overlap_thre num_classes gt_bb gt_classes r = ⟨0, 0, 0, 0, 0⟩ ∧
      (ss_entry lg overlap_thre num_classes gt_bb gt_classes bb).bb_targets.length
        = bb.length := by
  intro lg thre K gt_bb gt_classes bb r hpos harea
  constructor
  · have hlt : ss_max_overlaps K gt_bb gt_classes r < thre :=
      lt_of_le_of_lt (ss_max_overlaps_le K gt_bb gt_classes r) (max_lt harea hpos)
    unfold ss_bb_target
    rw [if_neg (not_le.mpr hlt)]
    rfl
  · simp [ss_entry]

/-- Witness for C6 at a concrete input: one ground-truth box of class 1 at
(0,0,9,9), one far-away proposal at (100,100,109,109) whose best overlap is
0 < 1/2; its stored target row is all zeros, and it still occupies the single
slot of the region set. -/
theorem c6_witness :
    ss_bb_target (fun _ => 0) (1/2) 21 [⟨0, 0, 9, 9⟩] [1] ⟨100, 100, 109, 109⟩
      = ⟨0, 0, 0, 0, 0⟩ ∧
    (ss_entry (fun _ => 0) (1/2) 21 [⟨0, 0, 9, 9⟩] [1]
      [⟨100, 100, 109, 109⟩]).bb_targets.length = 1 :=
  c6_below_use_threshold_is_zeroed (fun _ => 0) (1/2) 21 [⟨0, 0, 9, 9⟩] [1]
    [⟨100, 100, 109, 109⟩] ⟨100, 100, 109, 109⟩ (by norm_num) (by decide)

/-- Counterexample for C7: on ground truth (10,10,50,50) and proposal
(12,12,48,48) the overlap engine returns exactly 1369/1681 = 0.8144…, which
is below 0.83 and therefore not approximately 0.84. -/
theorem c7_counterexample :
    overlapEntry ⟨12, 12, 48, 48⟩ ⟨10, 10, 50, 50⟩ = 1369/1681 ∧
    overlapEntry ⟨12, 12, 48, 48⟩ ⟨10, 10, 50, 50⟩ < 83/100 := by
  constructor
  · decide
  · decide

/-- Claim C7 as amended: for ground-truth box (10,10,50,50) of class 3 and the
single proposal (12,12,48,48), the overlap engine returns exactly
1369/1681 ≈ 0.814 (37·37 intersection over 41·41 union, with the +1
inclusive-extent convention), this exceeds the foreground threshold 0.5, the
proposal passes the default use threshold, and it is assigned class 3. -/
theorem c7_overlap_and_class :
    overlapEntry ⟨12, 12, 48, 48⟩ ⟨10, 10, 50, 50⟩ = 1369/1681 ∧
    FRCN_FG_IOU_THRE ≤ overlapEntry ⟨12, 12, 48, 48⟩ ⟨10, 10, 50, 50⟩ ∧
    FRCN_IOU_THRE ≤ ss_max_overlaps 21 [⟨10, 10, 50, 50⟩] [3] ⟨12, 12, 48, 48⟩ ∧
    ss_max_overlap_class 21 [⟨10, 10, 50, 50⟩] [3] ⟨12, 12, 48, 48⟩ = 3 := by
  refine ⟨by decide, by decide, by decide, by decide⟩

/-- Claim C8: every entry of the overlap matrix is a well-defined value in
[0, 1], for arbitrary (also malformed) boxes; an entry is exactly 0 whenever
the computed intersection width or height is nonpositive; and whenever the
division of line 679 is reached (both guards pass) its divisor `ua` is
strictly positive, so no division by zero ever occurs. -/
theorem c8_overlap_matrix_bounds :
    ∀ (rp gt : List Box),
      (∀ row ∈ calculate_bb_overlap rp gt, ∀ v ∈ row, 0 ≤ v ∧ v ≤ 1) ∧
      (∀ r g : Box,
        (interW r g ≤ 0 ∨ interH r g ≤ 0 → overlapEntry r g = 0) ∧
        (0 < interW r g → 0 < interH r g → 0 < unionArea r g)) := by
  intro rp gt
  constructor
  · intro row hrow v hv
    simp only [calculate_bb_overlap, List.mem_map] at hrow
    obtain ⟨r, -, rfl⟩ := hrow
    simp only [List.mem_map] at hv
    obtain ⟨g, -, rfl⟩ := hv
    exact ⟨overlapEntry_nonneg r g, overlapEntry_le_one r g⟩
  · intro r g
    exact ⟨overlapEntry_eq_zero_of_nonpos r g,
      fun hw hh => (unionArea_pos r g hw hh).2⟩

end PascalVoc

namespace PascalVoc

/-! ## Minibatch sampler `_sample_fg_bg_rois` (lines 683-733) and the target
expansion `_get_bbox_regression_labels` (lines 736-758).

`np.random.choice(inds, size=n, replace=False)` is modelled by an abstract
selection function `pick : List ℕ → ℕ → List ℕ`; the source guarantees only
that it returns `n` elements of the pool when `n ≤ |pool|`, which enters the
theorems as a hypothesis.  The deterministic branch (randomness False,
`inds[range(n)]`) is `fun l n => l.take n`, which satisfies that hypothesis
and instantiates the witnesses. -/

/-- One per-image entry of roi_db as the sampler reads it (lines 687-690). -/
structure RoiEntry where
  max_overlap_class : List ℕ
  max_overlap_area : List ℚ
  bb : List Box
  bb_targets : List TRow
  deriving Repr

/-- Foreground pool (line 693): indices with overlap >= FRCN_FG_IOU_THRE. -/
def fg_inds (overlaps : List ℚ) : List ℕ :=
  (List.range overlaps.length).filter fun j => FRCN_FG_IOU_THRE ≤ overlaps.getD j 0

/-- Background pool (line 707): indices with overlap in
[FRCN_BG_IOU_THRE_LOW, FRCN_BG_IOU_THRE_HIGH). -/
def bg_inds (overlaps : List ℚ) : List ℕ :=
  (List.range overlaps.length).filter fun j =>
    overlaps.getD j 0 < FRCN_BG_IOU_THRE_HIGH ∧ FRCN_BG_IOU_THRE_LOW ≤ overlaps.getD j 0

/-- Number of foreground regions taken (line 697):
int(np.minimum(fg_rois_per_image, fg_inds.size)). -/
def fg_rois_per_this_image (fg_rois_per_image : ℕ) (overlaps : List ℚ) : ℕ :=
  min fg_rois_per_image (fg_inds overlaps).length

/-- Number of background regions taken (lines 710-711):
int(np.minimum(rois_per_image - fg_rois_per_this_image, bg_inds.size)), an
integer that can only be negative when fg_rois_per_image exceeds
rois_per_image (the class always passes fg = 0.25 * rois). -/
def bg_rois_per_this_image (fg_rois_per_image rois_per_image : ℕ)
    (overlaps : List ℚ) : ℤ :=
  min ((rois_per_image : ℤ) - fg_rois_per_this_image fg_rois_per_image overlaps)
    ((bg_inds overlaps).length : ℤ)

/-- The selected foreground indices (lines 699-704): sampled without
replacement when the pool is nonempty, the pool itself (empty) otherwise. -/
def fg_selected (pick : List ℕ → ℕ → List ℕ) (fg_rois_per_image : ℕ)
    (overlaps : List ℚ) : List ℕ :=
  if (fg_inds overlaps).length ≠ 0 then
    pick (fg_inds overlaps) (fg_rois_per_this_image fg_rois_per_image overlaps)
  else fg_inds overlaps

/-- The selected background indices (lines 713-718). -/
def bg_selected (pick : List ℕ → ℕ → List ℕ) (fg_rois_per_image rois_per_image : ℕ)
    (overlaps : List ℚ) : List ℕ :=
  if (bg_inds overlaps).length ≠ 0 then
    pick (bg_inds overlaps)
      (bg_rois_per_this_image fg_rois_per_image rois_per_image overlaps).toNat
  else bg_inds overlaps

/-- Sparse expansion of one compact target row into the 4*K layout
(lines 748-757): only the slice [4*cls, 4*cls+4) of a nonbackground row holds
its four deltas. -/
def bbox_target_row (num_classes : ℕ) (t : TRow) : List ℚ :=
  (List.range (4 * num_classes)).map fun j =>
    if 0 < t.cls ∧ 4 * t.cls ≤ j ∧ j < 4 * t.cls + 4 then
      if j = 4 * t.cls then t.dx
      else if j = 4 * t.cls + 1 then t.dy
      else if j = 4 * t.cls + 2 then t.dw
      else t.dh
    else 0

/-- The matching loss-weight row (line 757): 1 on the populated slice, 0
elsewhere. -/
def bbox_loss_row (num_classes : ℕ) (t : TRow) : List ℚ :=
  (List.range (4 * num_classes)).map fun j =>
    if 0 < t.cls ∧ 4 * t.cls ≤ j ∧ j < 4 * t.cls + 4 then 1 else 0

/-- _get_bbox_regression_labels (lines 736-758). -/
def _get_bbox_regression_labels (num_classes : ℕ) (rows : List TRow) :
    List (List ℚ) × List (List ℚ) :=
  (rows.map (bbox_target_row num_classes), rows.map (bbox_loss_row num_classes))

/-- What the sampler returns for one image (line 733). -/
structure SampleOut where
  labels : List ℕ
  overlaps : List ℚ
  rois : List Box
  bbox_targets : List (List ℚ)
  bbox_loss_weights : List (List ℚ)
  deriving Repr

/-- keep_inds (line 721): selected foreground indices followed by selected
background indices. -/
def keep_inds (pick : List ℕ → ℕ → List ℕ) (fg_rois_per_image rois_per_image : ℕ)
    (overlaps : List ℚ) : List ℕ :=
  fg_selected pick fg_rois_per_image overlaps ++
    bg_selected pick fg_rois_per_image rois_per_image overlaps

/-- The returned labels (lines 723-725): the recorded overlap classes of the
kept indices, with every position from fg_rois_per_this_image on clamped
to 0. -/
def sample_labels (pick : List ℕ → ℕ → List ℕ) (roidb : RoiEntry)
    (fg_rois_per_image rois_per_image : ℕ) : List ℕ :=
  let labels := (keep_inds pick fg_rois_per_image rois_per_image
    roidb.max_overlap_area).map fun j => roidb.max_overlap_class.getD j 0
  let fgN := fg_rois_per_this_image fg_rois_per_image roidb.max_overlap_area
  labels.take fgN ++ List.replicate (labels.length - fgN) 0

/-- _sample_fg_bg_rois (lines 683-733). -/
def _sample_fg_bg_rois (pick : List ℕ → ℕ → List ℕ) (roidb : RoiEntry)
    (fg_rois_per_image rois_per_image num_classes : ℕ) : SampleOut :=
  let overlaps := roidb.max_overlap_area
  let keep := keep_inds pick fg_rois_per_image rois_per_image overlaps
  let rows := keep.map fun j => roidb.bb_targets.getD j zeroTRow
  { labels := sample_labels pick roidb fg_rois_per_image rois_per_image
    overlaps := keep.map fun j => overlaps.getD j 0
    rois := keep.map fun j => roidb.bb.getD j ⟨0, 0, 0, 0⟩
    bbox_targets := (_get_bbox_regression_labels num_classes rows).1
    bbox_loss_weights := (_get_bbox_regression_labels num_classes rows).2 }

end PascalVoc

namespace PascalVoc

/-! ## Sampler facts -/

theorem fg_selected_length (pick : List ℕ → ℕ → List ℕ) (fgq : ℕ) (overlaps : List ℚ)
    (hpick : ∀ (l : List ℕ) (n : ℕ), n ≤ l.length → (pick l n).length = n) :
    (fg_selected pick fgq overlaps).length = fg_rois_per_this_image fgq overlaps := by
  unfold fg_selected
  split
  · exact hpick _ _ (min_le_right _ _)
  · rename_i h
    push_neg at h
    unfold fg_rois_per_this_image
    omega

theorem bg_selected_length (pick : List ℕ → ℕ → List ℕ) (fgq roisq : ℕ)
    (overlaps : List ℚ)
    (hpick : ∀ (l : List ℕ) (n : ℕ), n ≤ l.length → (pick l n).length = n) :
    (bg_selected pick fgq roisq overlaps).length
      = (bg_rois_per_this_image fgq roisq overlaps).toNat := by
  unfold bg_selected
  split
  · refine hpick _ _ ?_
    have h := min_le_right ((roisq : ℤ) - fg_rois_per_this_image fgq overlaps)
      ((bg_inds overlaps).length : ℤ)
    unfold bg_rois_per_this_image
    omega
  · rename_i h
    push_neg at h
    unfold bg_rois_per_this_image
    rw [h]
    omega

theorem sample_labels_length (pick : List ℕ → ℕ → List ℕ) (roidb : RoiEntry)
    (fgq roisq K : ℕ)
    (hpick : ∀ (l : List ℕ) (n : ℕ), n ≤ l.length → (pick l n).length = n) :
    (_sample_fg_bg_rois pick roidb fgq roisq K).labels.length
      = fg_rois_per_this_image fgq roidb.max_overlap_area
        + (bg_rois_per_this_image fgq roisq roidb.max_overlap_area).toNat := by
  have hf := fg_selected_length pick fgq roidb.max_overlap_area hpick
  have hb := bg_selected_length pick fgq roisq roidb.max_overlap_area hpick
  show (sample_labels pick roidb fgq roisq).length = _
  simp only [sample_labels, keep_inds, List.length_append, List.length_take,
    List.length_replicate, List.length_map, hf, hb]
  omega

/-- Claim C4: the sampler takes exactly min(fg_quota, |foreground pool|)
foreground regions and exactly min(total_quota - fg_taken, |background pool|)
background regions, so (given fg_quota <= total_quota, as the class
guarantees with fg = 0.25 * total) it never returns more than total_quota
regions for one image; an exhausted pool just shortens the result. -/
theorem c4_sampler_respects_quotas (pick : List ℕ → ℕ → List ℕ) (roidb : RoiEntry)
    (fgq roisq K : ℕ)
    (hpick : ∀ (l : List ℕ) (n : ℕ), n ≤ l.length → (pick l n).length = n)
    (hq : fgq ≤ roisq) :
    fg_rois_per_this_image fgq roidb.max_overlap_area
        = min fgq (fg_inds roidb.max_overlap_area).length ∧
    (_sample_fg_bg_rois pick roidb fgq roisq K).labels.length
        = fg_rois_per_this_image fgq roidb.max_overlap_area
          + min (roisq - fg_rois_per_this_image fgq roidb.max_overlap_area)
              (bg_inds roidb.max_overlap_area).length ∧
    (_sample_fg_bg_rois pick roidb fgq roisq K).labels.length ≤ roisq := by
  have hl := sample_labels_length pick roidb fgq roisq K hpick
  have hfg : fg_rois_per_this_image fgq roidb.max_overlap_area ≤ fgq :=
    min_le_left _ _
  refine ⟨rfl, ?_, ?_⟩
  · rw [hl]
    unfold bg_rois_per_this_image
    omega
  · rw [hl]
    unfold bg_rois_per_this_image
    omega

/-- Witness for C4 at a concrete input: five candidate regions with overlaps
(1, 3/5, 3/10, 1/5, 1/20), fg_quota 1, total_quota 3, deterministic
selection: the foreground pool has 2 entries and contributes 1, the
background pool has 2 entries and contributes min(3-1, 2) = 2, and the
sampler returns 3 = 1 + 2 <= 3 regions. -/
theorem c4_witness :
    (_sample_fg_bg_rois (fun l n => l.take n)
      ⟨[1, 2, 3, 4, 5], [1, 3/5, 3/10, 1/5, 1/20],
        [⟨0,0,1,1⟩, ⟨0,0,1,1⟩, ⟨0,0,1,1⟩, ⟨0,0,1,1⟩, ⟨0,0,1,1⟩],
        [zeroTRow, zeroTRow, zeroTRow, zeroTRow, zeroTRow]⟩
      1 3 21).labels.length = 3 ∧
    (_sample_fg_bg_rois (fun l n => l.take n)
      ⟨[1, 2, 3, 4, 5], [1, 3/5, 3/10, 1/5, 1/20],
        [⟨0,0,1,1⟩, ⟨0,0,1,1⟩, ⟨0,0,1,1⟩, ⟨0,0,1,1⟩, ⟨0,0,1,1⟩],
        [zeroTRow, zeroTRow, zeroTRow, zeroTRow, zeroTRow]⟩
      1 3 21).labels.length ≤ 3 := by
  have h := c4_sampler_respects_quotas (fun l n => l.take n)
    ⟨[1, 2, 3, 4, 5], [1, 3/5, 3/10, 1/5, 1/20],
      [⟨0,0,1,1⟩, ⟨0,0,1,1⟩, ⟨0,0,1,1⟩, ⟨0,0,1,1⟩, ⟨0,0,1,1⟩],
      [zeroTRow, zeroTRow, zeroTRow, zeroTRow, zeroTRow]⟩
    1 3 21 (fun l n hn => by simpa using hn) (by omega)
  exact ⟨h.2.1.trans (by decide), h.2.2⟩

end PascalVoc

namespace PascalVoc

/-- Dropping the foreground prefix of a clamp of the shape built on line 725
leaves only zeros. -/
theorem drop_take_append_replicate (l : List ℕ) (n : ℕ) (hn : n ≤ l.length) :
    (l.take n ++ List.replicate (l.length - n) 0).drop n
      = List.replicate (l.length - n) 0 := by
  have h : (l.take n).length = n := by
    simp [List.length_take]
    omega
  have key : ∀ (a b : List ℕ), a.length = n → (a ++ b).drop n = b := by
    intro a b ha
    rw [← ha, List.drop_left]
  exact key _ _ h

theorem labels_length_eq (pick : List ℕ → ℕ → List ℕ) (roidb : RoiEntry)
    (fgq roisq : ℕ)
    (hpick : ∀ (l : List ℕ) (n : ℕ), n ≤ l.length → (pick l n).length = n) :
    ((keep_inds pick fgq roisq roidb.max_overlap_area).map
        fun j => roidb.max_overlap_class.getD j 0).length
      = fg_rois_per_this_image fgq roidb.max_overlap_area
        + (bg_rois_per_this_image fgq roisq roidb.max_overlap_area).toNat := by
  simp only [keep_inds, List.length_map, List.length_append,
    fg_selected_length pick fgq roidb.max_overlap_area hpick,
    bg_selected_length pick fgq roisq roidb.max_overlap_area hpick]

/-- Claim C5: every region the sampler selects from the background pool sits
at a position at or past fg_rois_per_this_image in the returned arrays, and
the returned labels there are exactly a block of zeros — a background-sampled
region never carries a nonzero label, whatever overlap class was recorded for
it in the database. -/
theorem c5_sampled_background_label_is_zero (pick : List ℕ → ℕ → List ℕ)
    (roidb : RoiEntry) (fgq roisq K : ℕ)
    (hpick : ∀ (l : List ℕ) (n : ℕ), n ≤ l.length → (pick l n).length = n) :
    (_sample_fg_bg_rois pick roidb fgq roisq K).labels.drop
        (fg_rois_per_this_image fgq roidb.max_overlap_area)
      = List.replicate
          (bg_rois_per_this_image fgq roisq roidb.max_overlap_area).toNat 0 ∧
    ∀ j : ℕ, fg_rois_per_this_image fgq roidb.max_overlap_area ≤ j →
      (_sample_fg_bg_rois pick roidb fgq roisq K).labels.getD j 0 = 0 := by
  have hL := labels_length_eq pick roidb fgq roisq hpick
  have hlab : (_sample_fg_bg_rois pick roidb fgq roisq K).labels
      = sample_labels pick roidb fgq roisq := rfl
  have hdrop : (_sample_fg_bg_rois pick roidb fgq roisq K).labels.drop
      (fg_rois_per_this_image fgq roidb.max_overlap_area)
      = List.replicate
          (bg_rois_per_this_image fgq roisq roidb.max_overlap_area).toNat 0 := by
    rw [hlab]
    unfold sample_labels
    rw [drop_take_append_replicate _ _ (by omega)]
    rw [hL]
    congr 1
    omega
  refine ⟨hdrop, fun j hj => ?_⟩
  have hlen : (_sample_fg_bg_rois pick roidb fgq roisq K).labels.length
      = fg_rois_per_this_image fgq roidb.max_overlap_area
        + (bg_rois_per_this_image fgq roisq roidb.max_overlap_area).toNat := by
    rw [hlab]
    unfold sample_labels
    simp only [List.length_append, List.length_take, List.length_replicate]
    omega
  by_cases hjl : j < (_sample_fg_bg_rois pick roidb fgq roisq K).labels.length
  · have h1 : (_sample_fg_bg_rois pick roidb fgq roisq K).labels.getD j 0
        = ((_sample_fg_bg_rois pick roidb fgq roisq K).labels.drop
            (fg_rois_per_this_image fgq roidb.max_overlap_area)).getD
          (j - fg_rois_per_this_image fgq roidb.max_overlap_area) 0 := by
      rw [List.getD_eq_getElem?_getD, List.getD_eq_getElem?_getD,
        List.getElem?_drop]
      congr 2
      omega
    rw [h1, hdrop, List.getD_eq_getElem?_getD, List.getElem?_replicate]
    split
    · rfl
    · rfl
  · push_neg at hjl
    rw [List.getD_eq_getElem?_getD, List.getElem?_eq_none hjl]
    rfl

/-- Witness for C5 at a concrete input: two regions with overlaps (3/5, 3/10)
whose recorded overlap classes are 5 and 7; with fg_quota 1 and total_quota 2
the second region is sampled from the background pool and its returned label
is 0, not 7. -/
theorem c5_witness :
    (_sample_fg_bg_rois (fun l n => l.take n)
      ⟨[5, 7], [3/5, 3/10], [⟨0,0,1,1⟩, ⟨0,0,1,1⟩], [zeroTRow, zeroTRow]⟩
      1 2 21).labels.getD 1 0 = 0 :=
  (c5_sampled_background_label_is_zero (fun l n => l.take n)
    ⟨[5, 7], [3/5, 3/10], [⟨0,0,1,1⟩, ⟨0,0,1,1⟩], [zeroTRow, zeroTRow]⟩
    1 2 21 (fun l n hn => by simpa using hn)).2 1 (by decide)

end PascalVoc

namespace PascalVoc

/-! ## Constructor argument handling (PASCALVOC.__init__, lines 116-256) and
the epoch iterator skeleton (__iter__, lines 282-391).

__init__ performs file-existence asserts for its inputs (out of scope here)
but no check at all on output_type: line 125 stores it as passed.  The
if/elif chain on output_type sits in __iter__ (lines 378-389) and raises
ValueError inside the batch loop, so an unsupported selector surfaces only at
iteration time. -/

/-- FRCN_IMG_PER_BATCH = 4 (line 37). -/
def FRCN_IMG_PER_BATCH : ℕ := 4

/-- FRCN_ROI_PER_IMAGE = 64 (line 38). -/
def FRCN_ROI_PER_IMAGE : ℕ := 64

/-- FRCN_FG_FRAC = 0.25 (line 40). -/
def FRCN_FG_FRAC : ℚ := 1/4

/-- Python truthiness defaulting `x if x else d` used on lines 124, 128-129:
None and 0 both fall back to the default. -/
def orDefault (o : Option ℕ) (d : ℕ) : ℕ :=
  match o with
  | none => d
  | some v => if v = 0 then d else v

/-- The configuration state __init__ computes from its arguments
(lines 116-239); fields irrelevant to the claims (paths, backend buffers) are
omitted. -/
structure Config where
  output_type : ℤ
  add_flipped : Bool
  rois_per_image : ℕ
  img_per_batch : ℕ
  fg_rois_per_image : ℚ
  num_images : ℕ
  num_image_entries : ℕ
  nbatches : ℕ
  deriving DecidableEq, Repr

/-- PASCALVOC.__init__ argument handling (lines 116-239): output_type is
stored unvalidated (line 125); rois_per_image and img_per_batch fall back to
their module defaults (lines 128-129); fg quota is 0.25 * rois (line 130);
num_image_entries doubles under flip augmentation (lines 233-234);
nbatches is the integer (floor) division num_image_entries / img_per_batch
(line 236), overridden by n_mb when given (lines 238-239). -/
def PASCALVOC_init (add_flipped : Bool) (output_type : ℤ) (n_mb : Option ℕ)
    (img_per_batch rois_per_img : Option ℕ) (num_images : ℕ) : Config :=
  let rois_per_image := orDefault rois_per_img FRCN_ROI_PER_IMAGE
  let img_per_batch := orDefault img_per_batch FRCN_IMG_PER_BATCH
  let num_image_entries := if add_flipped then num_images * 2 else num_images
  { output_type := output_type
    add_flipped := add_flipped
    rois_per_image := rois_per_image
    img_per_batch := img_per_batch
    fg_rois_per_image := FRCN_FG_FRAC * rois_per_image
    num_images := num_images
    num_image_entries := num_image_entries
    nbatches := match n_mb with
      | none => num_image_entries / img_per_batch
      | some m => m }

/-- The three supported yield shapes of __iter__ (lines 378-386). -/
inductive OutputKind where
  | imageRoisLabelsBbtargets
  | imageRoisLabels
  | imageLabels
  deriving DecidableEq, Repr

/-- The if/elif chain on output_type at the end of each batch iteration
(lines 378-389); `none` models the ValueError raised for an unsupported
value. -/
def select_output (output_type : ℤ) : Option OutputKind :=
  if output_type = 0 then some OutputKind.imageRoisLabelsBbtargets
  else if output_type = 1 then some OutputKind.imageRoisLabels
  else if output_type = 2 then some OutputKind.imageLabels
  else none

/-- The per-batch index slices of one unshuffled epoch (lines 301-310):
shuf_idx = range(num_image_entries), and batch k reads
shuf_idx[k * img_per_batch : (k + 1) * img_per_batch] for k in
range(nbatches). -/
def epoch_db_inds (cfg : Config) : List (List ℕ) :=
  (List.range cfg.nbatches).map fun k =>
    ((List.range cfg.num_image_entries).drop (k * cfg.img_per_batch)).take
      cfg.img_per_batch

end PascalVoc

namespace PascalVoc

/-- Counterexample for C3: constructing a dataset object with the unsupported
output-shape selector 3 succeeds — the configuration is built and stores
output_type 3 unvalidated — while the selector check of __iter__ rejects 3;
so the failure is not raised at construction. -/
theorem c3_counterexample :
    (PASCALVOC_init false 3 none none none 10).output_type = 3 ∧
    select_output 3 = none := by
  constructor
  · rfl
  · rfl

/-- Claim C3 as amended: for every unsupported output-shape selector,
construction succeeds (the selector is stored as passed, unchecked), and the
ValueError surfaces only at iteration time, in the per-batch if/elif chain
of __iter__. -/
theorem c3_unsupported_output_type_fails_at_iteration :
    ∀ (output_type : ℤ) (add_flipped : Bool) (n_mb : Option ℕ)
      (img_per_batch rois_per_img : Option ℕ) (num_images : ℕ),
      output_type ≠ 0 → output_type ≠ 1 → output_type ≠ 2 →
      (PASCALVOC_init add_flipped output_type n_mb img_per_batch rois_per_img
        num_images).output_type = output_type ∧
      select_output output_type = none := by
  intro ot flip n_mb ipb rpi N h0 h1 h2
  refine ⟨rfl, ?_⟩
  unfold select_output
  rw [if_neg h0, if_neg h1, if_neg h2]

/-- Witness for C3 (amended) at the concrete selector 5 with flip enabled. -/
theorem c3_witness :
    (PASCALVOC_init true 5 none none none 7).output_type = 5 ∧
    select_output 5 = none :=
  c3_unsupported_output_type_fails_at_iteration 5 true none none none 7
    (by decide) (by decide) (by decide)

/-! ## Epoch slicing facts for C10 -/


theorem range'_drop (m : ℕ) : ∀ (s l : ℕ),
    (List.range' s l).drop m = List.range' (s + m) (l - m) := by
  induction m with
  | zero => intro s l; simp
  | succ m ih =>
      intro s l
      cases l with
      | zero => simp [List.range']
      | succ k =>
          rw [List.range'_succ, List.drop_succ_cons, ih (s + 1) k]
          congr 1 <;> omega

theorem range'_take (m : ℕ) : ∀ (s l : ℕ),
    (List.range' s l).take m = List.range' s (min m l) := by
  induction m with
  | zero => intro s l; simp
  | succ m ih =>
      intro s l
      cases l with
      | zero => simp [List.range']
      | succ k =>
          rw [List.range'_succ, List.take_succ_cons, ih (s + 1) k]
          rw [show min (m + 1) (k + 1) = min m k + 1 by omega, List.range'_succ]

/-- A full batch slice: for k below nbatches, the k-th slice of the
unshuffled index list is the img_per_batch consecutive indices starting at
k * img_per_batch. -/
theorem batch_slice_eq (entries ipb k : ℕ) (hk : k < entries / ipb) :
    ((List.range entries).drop (k * ipb)).take ipb
      = List.range' (k * ipb) ipb := by
  have hexp : (k + 1) * ipb = k * ipb + ipb := by ring
  have hle : (k + 1) * ipb ≤ entries := by
    calc (k + 1) * ipb ≤ entries / ipb * ipb := Nat.mul_le_mul_right ipb hk
      _ ≤ entries := Nat.div_mul_le_self entries ipb
  rw [List.range_eq_range', range'_drop, range'_take]
  have h0 : 0 + k * ipb = k * ipb := by omega
  have h1 : min ipb (entries - k * ipb) = ipb := by omega
  rw [h0, h1]

/-- The indices one unshuffled epoch visits, as a function of the entry count
and batch size: j is visited iff it lies in some batch slice. -/
theorem epoch_visits_iff (entries ipb j : ℕ) (hipb : 0 < ipb) :
    (∃ k < entries / ipb, j ∈ List.range' (k * ipb) ipb) ↔
      j < entries - entries % ipb := by
  have hdm := Nat.div_add_mod entries ipb
  have hcomm : entries / ipb * ipb = ipb * (entries / ipb) := Nat.mul_comm _ _
  constructor
  · rintro ⟨k, hk, hj⟩
    rw [List.mem_range'_1] at hj
    have h1 : k + 1 ≤ entries / ipb := hk
    have h2 : (k + 1) * ipb ≤ entries / ipb * ipb := Nat.mul_le_mul_right ipb h1
    have hexp : (k + 1) * ipb = k * ipb + ipb := by ring
    omega
  · intro hj
    refine ⟨j / ipb, ?_, ?_⟩
    · rw [Nat.div_lt_iff_lt_mul hipb]
      have : entries / ipb * ipb = entries - entries % ipb := by omega
      omega
    · rw [List.mem_range'_1]
      have h1 : j / ipb * ipb ≤ j := Nat.div_mul_le_self j ipb
      have h2 := Nat.div_add_mod j ipb
      have h3 := Nat.mod_lt j hipb
      have h4 : j / ipb * ipb = ipb * (j / ipb) := Nat.mul_comm _ _
      omega

/-- Claim C10: with no minibatch-count override and shuffling disabled, one
epoch visits exactly floor(num_image_entries / img_per_batch) batches of
img_per_batch entries each, and an image entry index is visited in that epoch
iff it lies below num_image_entries - num_image_entries % img_per_batch: the
trailing num_image_entries mod img_per_batch entries are never visited. -/
theorem c10_trailing_entries_dropped :
    ∀ (add_flipped : Bool) (output_type : ℤ) (rois_per_img : Option ℕ)
      (num_images ipb : ℕ), 0 < ipb →
      (epoch_db_inds (PASCALVOC_init add_flipped output_type none (some ipb)
          rois_per_img num_images)).length
        = (PASCALVOC_init add_flipped output_type none (some ipb) rois_per_img
            num_images).num_image_entries / ipb ∧
      (∀ b ∈ epoch_db_inds (PASCALVOC_init add_flipped output_type none
          (some ipb) rois_per_img num_images), b.length = ipb) ∧
      (∀ j : ℕ,
        (∃ b ∈ epoch_db_inds (PASCALVOC_init add_flipped output_type none
            (some ipb) rois_per_img num_images), j ∈ b) ↔
        j < (PASCALVOC_init add_flipped output_type none (some ipb)
              rois_per_img num_images).num_image_entries
            - (PASCALVOC_init add_flipped output_type none (some ipb)
                rois_per_img num_images).num_image_entries % ipb) := by
  intro flip ot rpi N ipb hipb
  have hipb' : orDefault (some ipb) FRCN_IMG_PER_BATCH = ipb := by
    simp only [orDefault]
    rw [if_neg (by omega)]
  set cfg := PASCALVOC_init flip ot none (some ipb) rpi N with hcfg
  have hcfg1 : cfg.img_per_batch = ipb := hipb'
  have hcfg2 : cfg.nbatches = cfg.num_image_entries / ipb := by
    show cfg.num_image_entries / orDefault (some ipb) FRCN_IMG_PER_BATCH
        = cfg.num_image_entries / ipb
    rw [hipb']
  refine ⟨?_, ?_, ?_⟩
  · simp [epoch_db_inds, hcfg2]
  · intro b hb
    simp only [epoch_db_inds, List.mem_map, List.mem_range] at hb
    obtain ⟨k, hk, rfl⟩ := hb
    rw [hcfg1, hcfg2] at *
    rw [batch_slice_eq _ _ _ hk, List.length_range']
  · intro j
    rw [show (∃ b ∈ epoch_db_inds cfg, j ∈ b) ↔
        (∃ k < cfg.num_image_entries / ipb, j ∈ List.range' (k * ipb) ipb) from ?_]
    · exact epoch_visits_iff cfg.num_image_entries ipb j hipb
    · constructor
      · rintro ⟨b, hb, hj⟩
        simp only [epoch_db_inds, List.mem_map, List.mem_range] at hb
        obtain ⟨k, hk, rfl⟩ := hb
        rw [hcfg1, hcfg2] at *
        exact ⟨k, hk, by rwa [batch_slice_eq _ _ _ hk] at hj⟩
      · rintro ⟨k, hk, hj⟩
        refine ⟨((List.range cfg.num_image_entries).drop
            (k * cfg.img_per_batch)).take cfg.img_per_batch, ?_, ?_⟩
        · simp only [epoch_db_inds, List.mem_map, List.mem_range]
          exact ⟨k, by rw [hcfg2]; exact hk, rfl⟩
        · rw [hcfg1, batch_slice_eq _ _ _ hk]
          exact hj

/-- Witness for C10: ten image entries with four images per batch yield two
batches; entry index 7 is visited, entry index 8 (one of the trailing
10 mod 4 = 2 entries) is not. -/
theorem c10_witness :
    (epoch_db_inds (PASCALVOC_init false 0 none (some 4) none 10)).length = 2 ∧
    (∃ b ∈ epoch_db_inds (PASCALVOC_init false 0 none (some 4) none 10), 7 ∈ b) ∧
    ¬(∃ b ∈ epoch_db_inds (PASCALVOC_init false 0 none (some 4) none 10), 8 ∈ b) := by
  have h := c10_trailing_entries_dropped false 0 none 10 4 (by omega)
  refine ⟨h.1.trans (by decide), ?_, ?_⟩
  · exact (h.2.2 7).mpr (by decide)
  · intro hc
    have := (h.2.2 8).mp hc
    revert this
    decide

end PascalVoc

namespace PascalVoc

/-! ## combine_gt_ss_roi (lines 531-614)

Per image i the method stacks the ground-truth and proposal target rows
(lines 562-565) and accumulates per-class statistics over them
(lines 567-572).  When add_flipped is set, line 581 binds
`bb_targets_flipped = bb_targets` — the SAME numpy array object that
line 565 already stored as the unflipped entry's bb_targets — and line 582
negates its dx column in place.  The unflipped entry i therefore also ends
up with the negated dx column, and the flipped entry i + num_images
(lines 584-594) stores that same array once more; the second statistics pass
(lines 595-601) runs over the negated values while the first pass ran over
the original ones.  The definitions below translate that net effect.

The normalization loop (lines 607-612) iterates only over the first
num_images entries, but through the shared array it rewrites the flipped
entries' rows as well, exactly once; so every entry's rows are normalized
with the dataset statistics. -/

/-- In-place dx negation of line 582 applied to one row. -/
def negDx (t : TRow) : TRow := { t with dx := -t.dx }

/-- The stacked per-image compact target rows (lines 562-563): ground-truth
rows first, then proposal rows. -/
def stacked_bb_targets (roi_gt : List GtRoi) (roi_ss : List SsRoi) :
    List (List TRow) :=
  List.zipWith (fun g s => gt_bb_targets g ++ s.bb_targets) roi_gt roi_ss

/-- The class-c rows of one stacked list (line 568: bb_targets[:, 0] == cls). -/
def clsRows (rows : List TRow) (c : ℕ) : List TRow :=
  rows.filter fun t => t.cls = c

/-- Column sum of a class within one image (line 571, one column selected by
`col`). -/
def col_sum (col : TRow → ℚ) (rows : List TRow) (c : ℕ) : ℚ :=
  ((clsRows rows c).map col).sum

/-- Column sum of squares (line 572). -/
def col_sq_sum (col : TRow → ℚ) (rows : List TRow) (c : ℕ) : ℚ :=
  ((clsRows rows c).map fun t => col t ^ 2).sum

/-- class_counts (lines 536, 570, 598): initialized to FRCN_EPS, incremented
by the class size once per image, twice when add_flipped (the flipped pass
counts the same rows again). -/
def class_counts (add_flipped : Bool) (dbt : List (List TRow)) (c : ℕ) : ℚ :=
  FRCN_EPS + (dbt.map fun rows => ((clsRows rows c).length : ℚ)).sum
    * (if add_flipped then 2 else 1)

/-- sums (lines 537, 571, 599): the first pass accumulates the rows as
computed; the second (flipped) pass accumulates the dx-negated rows. -/
def sums (add_flipped : Bool) (col : TRow → ℚ) (dbt : List (List TRow))
    (c : ℕ) : ℚ :=
  (dbt.map fun rows => col_sum col rows c).sum
    + (if add_flipped then
        (dbt.map fun rows => col_sum col (rows.map negDx) c).sum
      else 0)

/-- squared_sums (lines 538, 572, 600-601). -/
def squared_sums (add_flipped : Bool) (col : TRow → ℚ) (dbt : List (List TRow))
    (c : ℕ) : ℚ :=
  (dbt.map fun rows => col_sq_sum col rows c).sum
    + (if add_flipped then
        (dbt.map fun rows => col_sq_sum col (rows.map negDx) c).sum
      else 0)

/-- means = sums / class_counts (line 603). -/
def means (add_flipped : Bool) (col : TRow → ℚ) (dbt : List (List TRow))
    (c : ℕ) : ℚ :=
  sums add_flipped col dbt c / class_counts add_flipped dbt c

/-- The squared standard deviation of line 604
(stds = np.sqrt(squared_sums / class_counts - means ** 2)); kept squared
because the code uses stds only as the divisor of the normalization, which
`NVal` carries symbolically. -/
def stds_sq (add_flipped : Bool) (col : TRow → ℚ) (dbt : List (List TRow))
    (c : ℕ) : ℚ :=
  squared_sums add_flipped col dbt c / class_counts add_flipped dbt c
    - (means add_flipped col dbt c) ^ 2

/-- Horizontal box mirroring (lines 576-580): x coordinates reflected about
the image width, min/max swapped. -/
def flip_box (width : ℚ) (b : Box) : Box :=
  ⟨width - b.x2 - 1, b.y1, width - b.x1 - 1, b.y2⟩

/-- One entry of roi_gt_ss before normalization. -/
structure DbEntry where
  bb : List Box
  flipped : Bool
  bb_targets : List TRow
  deriving DecidableEq, Repr

/-- The roi_gt_ss entries as lines 540-601 leave them, before normalization.
Because of the array aliasing described above, when add_flipped is set the
unflipped entry i and the flipped entry i + num_images hold the SAME target
rows, with the dx column negated; without add_flipped the rows keep their
computed values. -/
def build_entries (add_flipped : Bool) (roi_gt : List GtRoi) (roi_ss : List SsRoi)
    (widths : List ℚ) : List DbEntry :=
  let stacked := stacked_bb_targets roi_gt roi_ss
  let bbs := List.zipWith (fun (g : GtRoi) (s : SsRoi) => g.gt_bb ++ s.ss_bb)
    roi_gt roi_ss
  let base := List.zipWith
    (fun bb rows =>
      DbEntry.mk bb false (if add_flipped then rows.map negDx else rows))
    bbs stacked
  let flippedPart := if add_flipped then
      List.zipWith
        (fun (p : List Box × List TRow) w =>
          DbEntry.mk (p.1.map (flip_box w)) true (p.2.map negDx))
        (bbs.zip stacked) widths
    else []
  base ++ flippedPart

/-- One normalized numeric cell.  The float the code stores is
num / sqrt(varDiv) (lines 611-612); a cell the normalization loop never
touches (background rows) carries varDiv = 1, so its value is just num.
A cell with varDiv = 0 is the result of dividing by a zero standard
deviation: a non-finite float. -/
structure NVal where
  num : ℚ
  varDiv : ℚ
  deriving DecidableEq, Repr

/-- A cell is a finite float exactly when its divisor sqrt(varDiv) is not
zero. -/
def NVal.finite (v : NVal) : Prop := v.varDiv ≠ 0

/-- One normalized target row. -/
structure NRow where
  cls : ℕ
  dx : NVal
  dy : NVal
  dw : NVal
  dh : NVal
  deriving DecidableEq, Repr

/-- The normalization of one stored row (lines 607-612): rows whose class
column lies in [1, num_classes) get each column shifted by the class mean and
divided by the class standard deviation; other rows (background) are left
untouched. -/
def normalize_row (add_flipped : Bool) (dbt : List (List TRow)) (num_classes : ℕ)
    (t : TRow) : NRow :=
  if 1 ≤ t.cls ∧ t.cls < num_classes then
    { cls := t.cls
      dx := ⟨t.dx - means add_flipped TRow.dx dbt t.cls,
        stds_sq add_flipped TRow.dx dbt t.cls⟩
      dy := ⟨t.dy - means add_flipped TRow.dy dbt t.cls,
        stds_sq add_flipped TRow.dy dbt t.cls⟩
      dw := ⟨t.dw - means add_flipped TRow.dw dbt t.cls,
        stds_sq add_flipped TRow.dw dbt t.cls⟩
      dh := ⟨t.dh - means add_flipped TRow.dh dbt t.cls,
        stds_sq add_flipped TRow.dh dbt t.cls⟩ }
  else
    { cls := t.cls
      dx := ⟨t.dx, 1⟩
      dy := ⟨t.dy, 1⟩
      dw := ⟨t.dw, 1⟩
      dh := ⟨t.dh, 1⟩ }

/-- One entry of the returned roi_gt_ss database, normalized. -/
structure NDbEntry where
  bb : List Box
  flipped : Bool
  bb_targets : List NRow
  deriving DecidableEq, Repr

/-- combine_gt_ss_roi (lines 531-614): build all entries, then rewrite every
entry's non-background rows with the dataset statistics (through the shared
arrays the loop of lines 607-612 normalizes flipped and unflipped entries
alike, once each). -/
def combine_gt_ss_roi (add_flipped : Bool) (num_classes : ℕ) (roi_gt : List GtRoi)
    (roi_ss : List SsRoi) (widths : List ℚ) : List NDbEntry :=
  let dbt := stacked_bb_targets roi_gt roi_ss
  (build_entries add_flipped roi_gt roi_ss widths).map fun e =>
    { bb := e.bb
      flipped := e.flipped
      bb_targets := e.bb_targets.map (normalize_row add_flipped dbt num_classes) }

/-- The stored dx numerators of the class-c rows across the whole normalized
database, in order (a measurement used by the claims, not part of the
source). -/
def stored_cls_dx_nums (ndb : List NDbEntry) (c : ℕ) : List ℚ :=
  (ndb.map fun e =>
    (e.bb_targets.filter fun r => r.cls = c).map fun r => r.dx.num).flatten

end PascalVoc

namespace PascalVoc

/-! ## The failing input for claims C1 and C2

One image of width 10: a single ground-truth box (0,0,9,9) of class 1 and a
single selective-search proposal (2,0,11,9).  Their IoU is 80/120 = 2/3, so
the proposal is used (2/3 >= 1/2), matched to class 1, and its regression
target has dx = -2/(9 + FRCN_EPS), dy = 0 and dw = dh = log 1 = 0 (the boxes
have equal width and height).  `ssC1` states that roi_ss entry directly so
that the combine stage is free of the abstract log model; the bridging lemma
`ssC1_eq_ss_entry` proves it equal to what load_pascal_roi_selectivesearch
computes, for every model of np.log sending 1 to 0. -/

def gtC1 : GtRoi := ⟨[⟨0, 0, 9, 9⟩], [1]⟩

def ssC1 : SsRoi :=
  ⟨[⟨2, 0, 11, 9⟩], [2/3], [1], [⟨1, -(2/(9 + FRCN_EPS)), 0, 0, 0⟩]⟩

theorem ssC1_eq_ss_entry (lg : ℚ → ℚ) (h : lg 1 = 0) :
    ss_entry lg FRCN_IOU_THRE 21 [⟨0, 0, 9, 9⟩] [1] [⟨2, 0, 11, 9⟩] = ssC1 := by
  have hrow : ss_bb_target lg FRCN_IOU_THRE 21 [⟨0, 0, 9, 9⟩] [1] ⟨2, 0, 11, 9⟩
      = ⟨1, -(2/(9 + FRCN_EPS)), 0, 0, 0⟩ := by
    unfold ss_bb_target
    rw [if_pos (by decide)]
    unfold _compute_bb_targets
    simp only [TRow.mk.injEq]
    refine ⟨by decide, by decide, by decide, by convert h using 2, by convert h using 2⟩
  have h1 : [(⟨2, 0, 11, 9⟩ : Box)].map (ss_max_overlap_area [⟨0, 0, 9, 9⟩])
      = [2/3] := by decide
  have h2 : [(⟨2, 0, 11, 9⟩ : Box)].map (ss_max_overlap_class 21 [⟨0, 0, 9, 9⟩] [1])
      = [1] := by decide
  have h3 : [(⟨2, 0, 11, 9⟩ : Box)].map
        (ss_bb_target lg FRCN_IOU_THRE 21 [⟨0, 0, 9, 9⟩] [1])
      = [⟨1, -(2/(9 + FRCN_EPS)), 0, 0, 0⟩] := by
    rw [List.map_cons, List.map_nil, hrow]
  unfold ss_entry
  rw [h1, h2, h3]
  rfl

end PascalVoc

namespace PascalVoc

/-- Claim C1 (code bug), evaluated at the failing input: without flip
augmentation the single entry stores dx = -2/(9+FRCN_EPS) for the proposal
row, but with add_flipped the UNFLIPPED entry 0 also ends up with the negated
column +2/(9+FRCN_EPS) — the in-place negation of line 582 runs on the array
line 565 already stored — and the flipped entry 1 holds literally the same
rows as entry 0 instead of a dx-negated copy of an unchanged original. -/
theorem c1_flip_negation_mutates_original :
    ((build_entries false [gtC1] [ssC1] [10]).map fun e => e.bb_targets.map TRow.dx)
      = [[0, -(2/(9 + FRCN_EPS))]] ∧
    ((build_entries true [gtC1] [ssC1] [10]).map fun e => e.bb_targets.map TRow.dx)
      = [[0, 2/(9 + FRCN_EPS)], [0, 2/(9 + FRCN_EPS)]] ∧
    ((build_entries true [gtC1] [ssC1] [10]).getD 1 (DbEntry.mk [] false [])).bb_targets
      = ((build_entries true [gtC1] [ssC1] [10]).getD 0 (DbEntry.mk [] false [])).bb_targets := by
  refine ⟨by decide, by decide, by decide⟩

/-- Claim C2 (code bug), evaluated at the failing input with add_flipped: the
statistics pass sees the dx values before negation (sum 0, so the computed
class-1 dx mean is 0 and the variance is 8/((9+eps)^2 (4+eps))), while the
stored arrays hold the negated column; the four stored class-1 dx numerators
sum to 4/(9+eps), and since that sum squared exceeds 4 times the variance,
the mean of the stored normalized dx values — sum/4 divided by the standard
deviation — exceeds 1/2 in absolute value instead of being approximately 0. -/
theorem c2_flip_breaks_normalized_mean :
    means true TRow.dx (stacked_bb_targets [gtC1] [ssC1]) 1 = 0 ∧
    stds_sq true TRow.dx (stacked_bb_targets [gtC1] [ssC1]) 1
      = 8 / ((9 + FRCN_EPS)^2 * (4 + FRCN_EPS)) ∧
    (stored_cls_dx_nums (combine_gt_ss_roi true 21 [gtC1] [ssC1] [10]) 1).sum
      = 4 / (9 + FRCN_EPS) ∧
    (stored_cls_dx_nums (combine_gt_ss_roi true 21 [gtC1] [ssC1] [10]) 1).sum ^ 2
      > 4 * stds_sq true TRow.dx (stacked_bb_targets [gtC1] [ssC1]) 1 := by
  refine ⟨by decide, by decide, by decide, by decide⟩

/-! ## Claim C9: a class whose accumulated targets are all zero -/

theorem normalize_row_cls (add_flipped : Bool) (dbt : List (List TRow))
    (num_classes : ℕ) (t : TRow) :
    (normalize_row add_flipped dbt num_classes t).cls = t.cls := by
  unfold normalize_row
  split <;> rfl

theorem col_sum_eq_zero (col : TRow → ℚ) (rows : List TRow) (c : ℕ)
    (h : ∀ t ∈ rows, t.cls = c → col t = 0) : col_sum col rows c = 0 := by
  unfold col_sum
  apply List.sum_eq_zero
  intro x hx
  simp only [List.mem_map] at hx
  obtain ⟨t, ht, rfl⟩ := hx
  unfold clsRows at ht
  rw [List.mem_filter] at ht
  exact h t ht.1 (by simpa using ht.2)

theorem col_sq_sum_eq_zero (col : TRow → ℚ) (rows : List TRow) (c : ℕ)
    (h : ∀ t ∈ rows, t.cls = c → col t = 0) : col_sq_sum col rows c = 0 := by
  unfold col_sq_sum
  apply List.sum_eq_zero
  intro x hx
  simp only [List.mem_map] at hx
  obtain ⟨t, ht, rfl⟩ := hx
  unfold clsRows at ht
  rw [List.mem_filter] at ht
  rw [h t ht.1 (by simpa using ht.2)]
  ring

theorem sums_eq_zero (add_flipped : Bool) (col : TRow → ℚ) (dbt : List (List TRow))
    (c : ℕ)
    (h : ∀ rows ∈ dbt, ∀ t ∈ rows, t.cls = c → col t = 0)
    (hneg : ∀ rows ∈ dbt, ∀ t ∈ rows, t.cls = c → col (negDx t) = 0) :
    sums add_flipped col dbt c = 0 := by
  unfold sums
  have hA : (dbt.map fun rows => col_sum col rows c).sum = 0 := by
    apply List.sum_eq_zero
    intro x hx
    simp only [List.mem_map] at hx
    obtain ⟨rows, hrows, rfl⟩ := hx
    exact col_sum_eq_zero col rows c (h rows hrows)
  have hB : (dbt.map fun rows => col_sum col (rows.map negDx) c).sum = 0 := by
    apply List.sum_eq_zero
    intro x hx
    simp only [List.mem_map] at hx
    obtain ⟨rows, hrows, rfl⟩ := hx
    apply col_sum_eq_zero
    intro t ht htc
    simp only [List.mem_map] at ht
    obtain ⟨u, hu, rfl⟩ := ht
    exact hneg rows hrows u hu htc
  rw [hA, hB]
  split <;> norm_num

theorem squared_sums_eq_zero (add_flipped : Bool) (col : TRow → ℚ)
    (dbt : List (List TRow)) (c : ℕ)
    (h : ∀ rows ∈ dbt, ∀ t ∈ rows, t.cls = c → col t = 0)
    (hneg : ∀ rows ∈ dbt, ∀ t ∈ rows, t.cls = c → col (negDx t) = 0) :
    squared_sums add_flipped col dbt c = 0 := by
  unfold squared_sums
  have hA : (dbt.map fun rows => col_sq_sum col rows c).sum = 0 := by
    apply List.sum_eq_zero
    intro x hx
    simp only [List.mem_map] at hx
    obtain ⟨rows, hrows, rfl⟩ := hx
    exact col_sq_sum_eq_zero col rows c (h rows hrows)
  have hB : (dbt.map fun rows => col_sq_sum col (rows.map negDx) c).sum = 0 := by
    apply List.sum_eq_zero
    intro x hx
    simp only [List.mem_map] at hx
    obtain ⟨rows, hrows, rfl⟩ := hx
    apply col_sq_sum_eq_zero
    intro t ht htc
    simp only [List.mem_map] at ht
    obtain ⟨u, hu, rfl⟩ := ht
    exact hneg rows hrows u hu htc
  rw [hA, hB]
  split <;> norm_num

theorem stds_sq_eq_zero (add_flipped : Bool) (col : TRow → ℚ)
    (dbt : List (List TRow)) (c : ℕ)
    (h : ∀ rows ∈ dbt, ∀ t ∈ rows, t.cls = c → col t = 0)
    (hneg : ∀ rows ∈ dbt, ∀ t ∈ rows, t.cls = c → col (negDx t) = 0) :
    stds_sq add_flipped col dbt c = 0 := by
  unfold stds_sq means
  rw [sums_eq_zero add_flipped col dbt c h hneg,
    squared_sums_eq_zero add_flipped col dbt c h hneg]
  simp

/-- Claim C9: when every accumulated regression target of a non-background
class c is all zero — as for a class matched only by ground-truth candidates,
whose rows (c, 0, 0, 0, 0) are the only contributions — the computed per-class
variance (hence the standard deviation of line 604) is exactly 0, the
FRCN_EPS count initialisation notwithstanding, and the unguarded division of
lines 611-612 makes every stored component of every class-c row of the built
database non-finite. -/
theorem c9_zero_variance_divides_to_nonfinite :
    ∀ (add_flipped : Bool) (num_classes : ℕ) (roi_gt : List GtRoi)
      (roi_ss : List SsRoi) (widths : List ℚ) (c : ℕ),
      1 ≤ c → c < num_classes →
      (∀ rows ∈ stacked_bb_targets roi_gt roi_ss, ∀ t ∈ rows, t.cls = c →
        t.dx = 0 ∧ t.dy = 0 ∧ t.dw = 0 ∧ t.dh = 0) →
      (stds_sq add_flipped TRow.dx (stacked_bb_targets roi_gt roi_ss) c = 0 ∧
       stds_sq add_flipped TRow.dy (stacked_bb_targets roi_gt roi_ss) c = 0 ∧
       stds_sq add_flipped TRow.dw (stacked_bb_targets roi_gt roi_ss) c = 0 ∧
       stds_sq add_flipped TRow.dh (stacked_bb_targets roi_gt roi_ss) c = 0) ∧
      ∀ e ∈ combine_gt_ss_roi add_flipped num_classes roi_gt roi_ss widths,
        ∀ r ∈ e.bb_targets, r.cls = c →
          ¬ r.dx.finite ∧ ¬ r.dy.finite ∧ ¬ r.dw.finite ∧ ¬ r.dh.finite := by
  intro flip K roi_gt roi_ss widths c hc1 hcK hall
  have hx : ∀ rows ∈ stacked_bb_targets roi_gt roi_ss, ∀ t ∈ rows, t.cls = c →
      TRow.dx t = 0 := fun rows hr t ht htc => (hall rows hr t ht htc).1
  have hy : ∀ rows ∈ stacked_bb_targets roi_gt roi_ss, ∀ t ∈ rows, t.cls = c →
      TRow.dy t = 0 := fun rows hr t ht htc => (hall rows hr t ht htc).2.1
  have hw : ∀ rows ∈ stacked_bb_targets roi_gt roi_ss, ∀ t ∈ rows, t.cls = c →
      TRow.dw t = 0 := fun rows hr t ht htc => (hall rows hr t ht htc).2.2.1
  have hh : ∀ rows ∈ stacked_bb_targets roi_gt roi_ss, ∀ t ∈ rows, t.cls = c →
      TRow.dh t = 0 := fun rows hr t ht htc => (hall rows hr t ht htc).2.2.2
  have hxn : ∀ rows ∈ stacked_bb_targets roi_gt roi_ss, ∀ t ∈ rows, t.cls = c →
      TRow.dx (negDx t) = 0 := by
    intro rows hr t ht htc
    show -t.dx = 0
    rw [(hall rows hr t ht htc).1]
    exact neg_zero
  have hVx := stds_sq_eq_zero flip TRow.dx (stacked_bb_targets roi_gt roi_ss) c hx hxn
  have hVy := stds_sq_eq_zero flip TRow.dy (stacked_bb_targets roi_gt roi_ss) c hy hy
  have hVw := stds_sq_eq_zero flip TRow.dw (stacked_bb_targets roi_gt roi_ss) c hw hw
  have hVh := stds_sq_eq_zero flip TRow.dh (stacked_bb_targets roi_gt roi_ss) c hh hh
  refine ⟨⟨hVx, hVy, hVw, hVh⟩, ?_⟩
  intro e he r hr hrc
  simp only [combine_gt_ss_roi, List.mem_map] at he
  obtain ⟨ent, -, rfl⟩ := he
  simp only [List.mem_map] at hr
  obtain ⟨t, -, rfl⟩ := hr
  have htc : t.cls = c := by
    rwa [normalize_row_cls] at hrc
  have hcond : 1 ≤ t.cls ∧ t.cls < K := by
    rw [htc]
    exact ⟨hc1, hcK⟩
  have hreq : normalize_row flip (stacked_bb_targets roi_gt roi_ss) K t
      = { cls := t.cls
          dx := ⟨t.dx - means flip TRow.dx (stacked_bb_targets roi_gt roi_ss) t.cls,
            stds_sq flip TRow.dx (stacked_bb_targets roi_gt roi_ss) t.cls⟩
          dy := ⟨t.dy - means flip TRow.dy (stacked_bb_targets roi_gt roi_ss) t.cls,
            stds_sq flip TRow.dy (stacked_bb_targets roi_gt roi_ss) t.cls⟩
          dw := ⟨t.dw - means flip TRow.dw (stacked_bb_targets roi_gt roi_ss) t.cls,
            stds_sq flip TRow.dw (stacked_bb_targets roi_gt roi_ss) t.cls⟩
          dh := ⟨t.dh - means flip TRow.dh (stacked_bb_targets roi_gt roi_ss) t.cls,
            stds_sq flip TRow.dh (stacked_bb_targets roi_gt roi_ss) t.cls⟩ } := by
    unfold normalize_row
    rw [if_pos hcond]
  rw [hreq]
  refine ⟨fun hf => hf ?_, fun hf => hf ?_, fun hf => hf ?_, fun hf => hf ?_⟩
  · rw [htc]; exact hVx
  · rw [htc]; exact hVy
  · rw [htc]; exact hVw
  · rw [htc]; exact hVh

/-- Witness for C9 at a concrete input: one image whose only ground-truth box
has class 2 and whose single proposal is far away (overlap 0, background
row); class 2 accumulates only the all-zero ground-truth target, its
computed variance is exactly 0, and every stored class-2 dx cell of the
built database is non-finite. -/
theorem c9_witness :
    stds_sq false TRow.dx
      (stacked_bb_targets [⟨[⟨0, 0, 9, 9⟩], [2]⟩]
        [⟨[⟨100, 100, 109, 109⟩], [0], [0], [zeroTRow]⟩]) 2 = 0 ∧
    ∀ e ∈ combine_gt_ss_roi false 21 [⟨[⟨0, 0, 9, 9⟩], [2]⟩]
        [⟨[⟨100, 100, 109, 109⟩], [0], [0], [zeroTRow]⟩] [10],
      ∀ r ∈ e.bb_targets, r.cls = 2 → ¬ r.dx.finite := by
  have h := c9_zero_variance_divides_to_nonfinite false 21 [⟨[⟨0, 0, 9, 9⟩], [2]⟩]
    [⟨[⟨100, 100, 109, 109⟩], [0], [0], [zeroTRow]⟩] [10] 2
    (by decide) (by decide) (by decide)
  exact ⟨h.1.1, fun e he r hr hrc => (h.2 e he r hr hrc).1⟩

end PascalVoc
